import Mathlib

/-!
Verification model of the Ruckig Online Trajectory Generator core, as described
by the repository's design specification and exercised by its example programs.
The core engine itself (single-axis profile solver, synchronization engine,
waypoint sequencer, trajectory value object and online controller) is not part
of the repository sources; every definition below is therefore modelled from
the specification, with exact rational arithmetic standing in for the C++
floating-point numbers.  The solver follows the spec's architecture: closed-form
candidate profiles are generated per axis and per section, then verified against
an exact feasibility check (boundary values, velocity/acceleration/jerk bounds,
durations), and the calculation fails when no verified profile exists.
-/

/-- Modelled from the spec (§3 KinematicState): position, velocity and
acceleration of a single axis at one instant. -/
structure Kin where
  p : ℚ
  v : ℚ
  a : ℚ
deriving DecidableEq

/-- Modelled from the spec (§3 Profile): one constant-jerk phase of a profile,
with its duration and its (constant) jerk value. -/
structure Seg where
  t : ℚ
  j : ℚ
deriving DecidableEq

/-- Modelled from the spec (§3 Profile): exact kinematic integration of a
constant-jerk phase for a time span τ. -/
def kinStep (k : Kin) (j τ : ℚ) : Kin :=
  ⟨k.p + k.v*τ + k.a*τ^2/2 + j*τ^3/6, k.v + k.a*τ + j*τ^2/2, k.a + j*τ⟩

/-- State at the end of one segment. -/
def segEnd (k : Kin) (s : Seg) : Kin := kinStep k s.j s.t

/-- State at the end of a list of segments, chaining boundary states. -/
def endState (k : Kin) (segs : List Seg) : Kin := segs.foldl segEnd k

/-- Total duration of a list of segments. -/
def sumDur (segs : List Seg) : ℚ := (segs.map Seg.t).sum

/-- Modelled from the spec (§3 Trajectory, point-in-time evaluation): evaluate a
piecewise constant-jerk profile at time τ, returning the kinematic state and the
jerk there; beyond the final segment the final state is held. -/
def atTime (k : Kin) : List Seg → ℚ → Kin × ℚ
  | [], _ => (k, 0)
  | s :: rest, τ => if τ < s.t then (kinStep k s.j τ, s.j) else atTime (segEnd k s) rest (τ - s.t)

/-- Modelled from the spec (§3 Limits): effective per-axis limits, with the
asymmetric minima already defaulted to the negated maxima when unset. -/
structure Limits where
  vmin : ℚ
  vmax : ℚ
  amin : ℚ
  amax : ℚ
  jmax : ℚ
deriving DecidableEq

/-- Value of the quadratic τ ↦ v + a·τ + j·τ²/2 (the velocity along one
constant-jerk phase; with j := 0 also the linear acceleration along it). -/
def quadF (j a v τ : ℚ) : ℚ := v + a*τ + j*τ^2/2

/-- Exact range check for a quadratic on the interval [0, d]: both endpoints are
inside [lo, hi], and so is the interior critical point when one exists.  This is
the feasibility check the spec's solver performs on each candidate phase. -/
def quadCheck (j a v lo hi d : ℚ) : Prop :=
  (lo ≤ v ∧ v ≤ hi) ∧ (lo ≤ quadF j a v d ∧ quadF j a v d ≤ hi) ∧
    (j ≠ 0 → 0 < -a/j → -a/j < d → lo ≤ quadF j a v (-a/j) ∧ quadF j a v (-a/j) ≤ hi)

instance (j a v lo hi d : ℚ) : Decidable (quadCheck j a v lo hi d) := by
  unfold quadCheck; infer_instance

/-- Modelled from the spec (§4.1 (b)-(c)): a single constant-jerk phase keeps
the jerk magnitude within the bound and velocity and acceleration inside their
(possibly asymmetric) ranges throughout its duration. -/
def segCheck (L : Limits) (k : Kin) (s : Seg) : Prop :=
  0 ≤ s.t ∧ |s.j| ≤ L.jmax ∧ quadCheck 0 s.j k.a L.amin L.amax s.t ∧
    quadCheck s.j k.a k.v L.vmin L.vmax s.t

instance (L : Limits) (k : Kin) (s : Seg) : Decidable (segCheck L k s) := by
  unfold segCheck; infer_instance

/-- Feasibility check of a whole phase list, chaining the boundary states. -/
def segsCheck (L : Limits) : Kin → List Seg → Prop
  | _, [] => True
  | k, s :: rest => segCheck L k s ∧ segsCheck L (segEnd k s) rest

instance segsCheckDec (L : Limits) : (k : Kin) → (segs : List Seg) → Decidable (segsCheck L k segs)
  | _, [] => by unfold segsCheck; infer_instance
  | k, s :: rest => by
      unfold segsCheck
      exact @instDecidableAnd _ _ inferInstance (segsCheckDec L (segEnd k s) rest)

/-- Velocity and acceleration of a state are inside the limit ranges. -/
def kinBounds (L : Limits) (k : Kin) : Prop :=
  L.vmin ≤ k.v ∧ k.v ≤ L.vmax ∧ L.amin ≤ k.a ∧ k.a ≤ L.amax

instance (L : Limits) (k : Kin) : Decidable (kinBounds L k) := by
  unfold kinBounds; infer_instance

/-- Modelled from the spec (§8 Boundedness): full feasibility check of a
per-axis profile, covering the initial instant and every phase. -/
def profileCheck (L : Limits) (init : Kin) (segs : List Seg) : Prop :=
  0 ≤ L.jmax ∧ kinBounds L init ∧ segsCheck L init segs

instance (L : Limits) (init : Kin) (segs : List Seg) : Decidable (profileCheck L init segs) := by
  unfold profileCheck; infer_instance

/-- Modelled from the spec (§3 InputParameter): position control toward a full
target state, or velocity control toward a target velocity/acceleration pair. -/
inductive ControlInterface
  | Position
  | Velocity
deriving DecidableEq

/-- Modelled from the spec (§3 InputParameter): time-synchronize all axes to the
slowest one, or let each axis finish independently. -/
inductive Synchronization
  | Time
  | None
deriving DecidableEq

/-- Modelled from the spec (§4.4, §7): result of one online-controller update,
a flat status value; error causes are distinct from the Working/Finished
progression and are returned, never thrown. -/
inductive Result
  | Working
  | Finished
  | ErrorInvalidInput
  | ErrorSynchronizationCalculation
  | ErrorExecutionTimeCalculation
deriving DecidableEq

/-- Modelled from the spec (§3 InputParameter): caller-owned input of one
control cycle. -/
structure InputParameter (n : ℕ) where
  current_position : Fin n → ℚ
  current_velocity : Fin n → ℚ
  current_acceleration : Fin n → ℚ
  target_position : Fin n → ℚ
  target_velocity : Fin n → ℚ
  target_acceleration : Fin n → ℚ
  max_velocity : Fin n → ℚ
  max_acceleration : Fin n → ℚ
  max_jerk : Fin n → ℚ
  min_velocity : Option (Fin n → ℚ) := none
  min_acceleration : Option (Fin n → ℚ) := none
  intermediate_positions : List (Fin n → ℚ) := []
  per_section_minimum_duration : List ℚ := []
  minimum_duration : Option ℚ := none
  control_interface : ControlInterface := ControlInterface.Position
  synchronization : Synchronization := Synchronization.Time
  interrupt_calculation_duration : Option ℕ := none
deriving DecidableEq

/-- Effective per-axis limits, with unset asymmetric minima defaulting to the
negated maxima (spec §3 Limits). -/
def InputParameter.limits (inp : InputParameter n) (i : Fin n) : Limits :=
  ⟨((inp.min_velocity).map (fun f => f i)).getD (-(inp.max_velocity i)),
   inp.max_velocity i,
   ((inp.min_acceleration).map (fun f => f i)).getD (-(inp.max_acceleration i)),
   inp.max_acceleration i,
   inp.max_jerk i⟩

/-- Current kinematic state of one axis. -/
def currentKin (inp : InputParameter n) (i : Fin n) : Kin :=
  ⟨inp.current_position i, inp.current_velocity i, inp.current_acceleration i⟩

/-- Target kinematic state of one axis. -/
def targetKin (inp : InputParameter n) (i : Fin n) : Kin :=
  ⟨inp.target_position i, inp.target_velocity i, inp.target_acceleration i⟩

/-- Number of boundary-value sections: waypoints + 1 (spec §4.3). -/
def numSections (inp : InputParameter n) : ℕ := inp.intermediate_positions.length + 1

/-- Per-axis sequence of section endpoint positions: current position, the
waypoint positions, then the target position (spec §4.3). -/
def pathPoints (inp : InputParameter n) (i : Fin n) : List ℚ :=
  inp.current_position i :: (inp.intermediate_positions.map (fun w => w i) ++ [inp.target_position i])

/-- Per-section minimum duration floor, 0 when unconstrained (spec §4.3). -/
def psmdAt (inp : InputParameter n) (k : ℕ) : ℚ :=
  inp.per_section_minimum_duration.getD k 0

/-- Modelled from the spec (§4.1): closed-form seven-phase rest-to-rest profile
over a nonnegative distance d in the velocity-limited case (jerk ramp to the
acceleration cap, constant acceleration up to the velocity cap, cruise, then the
mirrored deceleration ramp); the solver reports infeasibility for the remaining
cases, which the feasibility verification would reject anyway. -/
def restProfile (d V A J : ℚ) : Option (List Seg) :=
  if d = 0 then some [] else
  if 0 < V ∧ 0 < A ∧ 0 < J ∧ A^2/J ≤ V ∧ V*(V/A + A/J) ≤ d then
    some [⟨A/J, J⟩, ⟨V/A - A/J, 0⟩, ⟨A/J, -J⟩, ⟨(d - V*(V/A + A/J))/V, 0⟩,
          ⟨A/J, -J⟩, ⟨V/A - A/J, 0⟩, ⟨A/J, J⟩]
  else none

/-- Mirror a profile for a move in the negative direction. -/
def mirrorSegs (segs : List Seg) : List Seg := segs.map (fun s => ⟨s.t, -s.j⟩)

/-- Modelled from the spec (§4.1): single-axis position-control boundary-value
step between two rest states, case-split on the direction of the move; the
deceleration cap is the tighter of the two acceleration bounds. -/
def solvePositionStep (p0 p1 : ℚ) (L : Limits) : Option (List Seg) :=
  if 0 ≤ p1 - p0 then restProfile (p1 - p0) L.vmax (min L.amax (-L.amin)) L.jmax
  else (restProfile (p0 - p1) (-L.vmin) (min L.amax (-L.amin)) L.jmax).map mirrorSegs

/-- Modelled from the spec (§4.1, velocity-control): three-phase ramp from rest
to a nonnegative target velocity w under acceleration cap A and jerk cap J. -/
def velRamp (w A J : ℚ) : Option (List Seg) :=
  if w = 0 then some [] else
  if 0 < A ∧ 0 < J ∧ A^2/J ≤ w then some [⟨A/J, J⟩, ⟨w/A - A/J, 0⟩, ⟨A/J, -J⟩]
  else none

/-- Modelled from the spec (§4.1, velocity-control): single-axis step from rest
to a target velocity with zero target acceleration. -/
def solveVelocityStep (vt aT : ℚ) (L : Limits) : Option (List Seg) :=
  if aT = 0 then
    (if 0 ≤ vt then (if vt ≤ L.vmax then velRamp vt L.amax L.jmax else none)
     else (if L.vmin ≤ vt then (velRamp (-vt) (-L.amin) L.jmax).map mirrorSegs else none))
  else none

/-- Modelled from the spec (§4.1, §4.3): minimum-time candidate profile of axis
i over section k.  Interior waypoint velocity/acceleration are derived, not
externally specified; this model uses the conservative rest blend, so sections
are solvable only from rest boundary states (the feasibility verification
rejects anything else, making the calculation fail rather than mis-plan). -/
def solveSection (inp : InputParameter n) (i : Fin n) (k : ℕ) : Option (List Seg) :=
  match inp.control_interface with
  | ControlInterface.Position =>
      if inp.current_velocity i = 0 ∧ inp.current_acceleration i = 0 ∧
         inp.target_velocity i = 0 ∧ inp.target_acceleration i = 0 then
        solvePositionStep ((pathPoints inp i).getD k 0) ((pathPoints inp i).getD (k+1) 0)
          (inp.limits i)
      else none
  | ControlInterface.Velocity =>
      if inp.current_velocity i = 0 ∧ inp.current_acceleration i = 0 then
        solveVelocityStep (inp.target_velocity i) (inp.target_acceleration i) (inp.limits i)
      else none

/-- Unconstrained minimal duration of axis i over section k (0 if the section
solver found no candidate). -/
def minSectionDur (inp : InputParameter n) (i : Fin n) (k : ℕ) : ℚ :=
  ((solveSection inp i k).map sumDur).getD 0

/-- Modelled from the spec (§4.2): an axis's unconstrained minimal time, the
sum of its per-section minimal durations before any duration floor is applied. -/
def axisMinDuration (inp : InputParameter n) (i : Fin n) : ℚ :=
  ((List.range (numSections inp)).map (minSectionDur inp i)).sum

/-- Maximum of a list of rationals, at least 0. -/
def foldMax (l : List ℚ) : ℚ := l.foldr max 0

/-- Modelled from the spec (§4.2, §4.3): common block duration of section k,
the maximum of the per-axis minimal durations and the per-section floor. -/
def blockDuration (inp : InputParameter n) (k : ℕ) : ℚ :=
  max (psmdAt inp k) (foldMax ((List.finRange n).map (fun i => minSectionDur inp i k)))

/-- Sum of the first m block durations, before the global duration floor. -/
def rawDuration (inp : InputParameter n) (m : ℕ) : ℚ :=
  ((List.range m).map (blockDuration inp)).sum

/-- Modelled from the spec (§4.2): block duration of section k after the global
minimum_duration floor; any missing time is absorbed by the final section. -/
def adjustedBlock (inp : InputParameter n) (m : ℕ) (k : ℕ) : ℚ :=
  if k + 1 = m ∧ rawDuration inp m < (inp.minimum_duration).getD 0 then
    blockDuration inp k + ((inp.minimum_duration).getD 0 - rawDuration inp m)
  else blockDuration inp k

/-- Total planned duration of an m-section synchronized trajectory. -/
def syncDuration (inp : InputParameter n) (m : ℕ) : ℚ :=
  max (rawDuration inp m) ((inp.minimum_duration).getD (rawDuration inp m))

/-- Modelled from the spec (§4.2): re-derive a section profile to match a given
(not smaller) duration without violating the limits.  Position-control sections
are stretched by exact time dilation (duration scale κ, jerk scale κ⁻³), which
preserves rest boundary states and shrinks velocity/acceleration; a zero-length
section becomes a coast at rest.  Velocity-control profiles are extended by a
terminal coast at the reached target velocity. -/
def stretchSegs (iface : ControlInterface) (segs : List Seg) (T : ℚ) : List Seg :=
  match iface with
  | ControlInterface.Position =>
      if sumDur segs = 0 then (if T = 0 then [] else [⟨T, 0⟩])
      else segs.map (fun s => ⟨(T/sumDur segs) * s.t, s.j / (T/sumDur segs)^3⟩)
  | ControlInterface.Velocity =>
      if T ≤ sumDur segs then segs else segs ++ [⟨T - sumDur segs, 0⟩]

/-- Modelled from the spec (§3 Profile): one axis of a trajectory — its initial
state and its per-section phase lists. -/
structure AxisProfile where
  init : Kin
  sections : List (List Seg)
deriving DecidableEq

/-- All phases of an axis in order. -/
def AxisProfile.segs (P : AxisProfile) : List Seg := P.sections.flatten

/-- Finish time of one axis. -/
def AxisProfile.duration (P : AxisProfile) : ℚ := sumDur P.segs

/-- Phase list of axis i over section k of an m-section build: the minimal
candidate, stretched to the common block duration when synchronized (spec
§4.2), kept minimal under Synchronization.None. -/
def sectionSegsAt (inp : InputParameter n) (m k : ℕ) (i : Fin n) : List Seg :=
  match inp.synchronization with
  | Synchronization.Time =>
      stretchSegs inp.control_interface ((solveSection inp i k).getD []) (adjustedBlock inp m k)
  | Synchronization.None => (solveSection inp i k).getD []

/-- Modelled from the spec (§4.2, §4.3): assemble axis i of an m-section
trajectory; synchronized sections are stretched to the common block duration,
unsynchronized axes keep their own minimal profiles. -/
def buildAxis (inp : InputParameter n) (m : ℕ) (i : Fin n) : AxisProfile :=
  ⟨currentKin inp i, (List.range m).map (fun k => sectionSegsAt inp m k i)⟩

/-- Modelled from the spec (§3 Trajectory): the immutable, time-queryable
result — one profile per axis and the overall duration. -/
structure Trajectory (n : ℕ) where
  axes : Fin n → AxisProfile
  duration : ℚ
deriving DecidableEq

/-- Modelled from the spec (§3 Trajectory): point-in-time evaluation of axis i,
returning the kinematic state and jerk at time τ. -/
def Trajectory.at_time (tr : Trajectory n) (τ : ℚ) (i : Fin n) : Kin × ℚ :=
  atTime (tr.axes i).init (tr.axes i).segs τ

/-- Overall duration of an m-section build: the synchronized duration, or the
latest finishing axis under Synchronization.None (spec §4.2). -/
def trajDuration (inp : InputParameter n) (m : ℕ) : ℚ :=
  match inp.synchronization with
  | Synchronization.Time => syncDuration inp m
  | Synchronization.None =>
      foldMax ((List.finRange n).map (fun i => (buildAxis inp m i).duration))

/-- Assembled m-section trajectory. -/
def assemble (inp : InputParameter n) (m : ℕ) : Trajectory n :=
  ⟨buildAxis inp m, trajDuration inp m⟩

/-- State at a rest waypoint. -/
def restKin (x : ℚ) : Kin := ⟨x, 0, 0⟩

/-- Modelled from the spec (§4.1 (a), §4.3): required boundary state at the end
of section k of an m-section build — the full target state (position control)
or the target velocity/acceleration (velocity control) at the final section,
and the rest waypoint state at interior sections. -/
def sectionGoal (inp : InputParameter n) (i : Fin n) (m k : ℕ) (kin : Kin) : Prop :=
  if k + 1 = m ∧ m = numSections inp then
    (inp.control_interface = ControlInterface.Position → kin = targetKin inp i) ∧
    (inp.control_interface = ControlInterface.Velocity →
      kin.v = inp.target_velocity i ∧ kin.a = inp.target_acceleration i)
  else kin = restKin ((pathPoints inp i).getD (k+1) 0)

instance (inp : InputParameter n) (i : Fin n) (m k : ℕ) (kin : Kin) :
    Decidable (sectionGoal inp i m k kin) := by
  unfold sectionGoal; infer_instance

/-- Modelled from the spec (§7 InvalidInput): input validation — positive
maxima, negative effective minima, a consistent per-section floor vector, and
the mode combinations this model supports; malformed limits are rejected, never
silently clamped. -/
def validateInput (inp : InputParameter n) : Prop :=
  0 < n ∧
  (∀ i, (inp.limits i).vmin < 0 ∧ 0 < (inp.limits i).vmax ∧ (inp.limits i).amin < 0 ∧
    0 < (inp.limits i).amax ∧ 0 < (inp.limits i).jmax) ∧
  (inp.per_section_minimum_duration = [] ∨
    (inp.intermediate_positions ≠ [] ∧
     inp.per_section_minimum_duration.length = numSections inp ∧
     ∀ q ∈ inp.per_section_minimum_duration, 0 ≤ q)) ∧
  (inp.control_interface = ControlInterface.Velocity → inp.intermediate_positions = []) ∧
  (inp.intermediate_positions ≠ [] → inp.synchronization = Synchronization.Time) ∧
  (inp.minimum_duration ≠ none → inp.synchronization = Synchronization.Time)

instance (inp : InputParameter n) : Decidable (validateInput inp) := by
  unfold validateInput; infer_instance

/-- Full feasibility verification of axis i of an m-section build (spec §4.1,
§4.2, §4.3, §8): bounds throughout, section boundary states, per-section floors
and duration synchronization. -/
def axisCheck (inp : InputParameter n) (m : ℕ) (i : Fin n) : Prop :=
  profileCheck (inp.limits i) (buildAxis inp m i).init (buildAxis inp m i).segs ∧
  (∀ k ∈ List.range m,
    sectionGoal inp i m k
      (endState (buildAxis inp m i).init (((buildAxis inp m i).sections.take (k+1)).flatten))) ∧
  (∀ k ∈ List.range m, psmdAt inp k ≤ sumDur ((buildAxis inp m i).sections.getD k [])) ∧
  (∀ k ∈ List.range m, inp.synchronization = Synchronization.Time →
    sumDur ((buildAxis inp m i).sections.getD k []) = adjustedBlock inp m k) ∧
  (buildAxis inp m i).duration ≤ trajDuration inp m ∧
  (inp.synchronization = Synchronization.Time →
    (buildAxis inp m i).duration = trajDuration inp m)

instance (inp : InputParameter n) (m : ℕ) (i : Fin n) : Decidable (axisCheck inp m i) := by
  unfold axisCheck; infer_instance

/-- Verification of a whole m-section build, including the global duration
floor (spec §4.2). -/
def finalCheck (inp : InputParameter n) (m : ℕ) : Prop :=
  (∀ i, axisCheck inp m i) ∧
  (inp.minimum_duration).getD (trajDuration inp m) ≤ trajDuration inp m

instance (inp : InputParameter n) (m : ℕ) : Decidable (finalCheck inp m) := by
  unfold finalCheck; infer_instance

/-- Modelled from the spec (§4.1-§4.3): compute and verify an m-section
trajectory; infeasibility is reported as an error value. -/
def calculateCore (inp : InputParameter n) (m : ℕ) : Except Result (Trajectory n) :=
  if finalCheck inp m then Except.ok (assemble inp m)
  else Except.error Result.ErrorSynchronizationCalculation

/-- Modelled from the spec (§4.4 step 2): full calculation under the
deterministic computation budget `interrupt_calculation_duration`, counted in
abstract microseconds of computation, one per section.  When the budget covers
all sections the full trajectory is computed; when it is exhausted first, the
trajectory of the sections computed so far is returned with the interruption
flag raised; when not even one section fits the budget, an error is reported. -/
def calculateWithBudget (inp : InputParameter n) : Except Result (Trajectory n × Bool) :=
  if validateInput inp then
    match inp.interrupt_calculation_duration with
    | none => (calculateCore inp (numSections inp)).map (fun tr => (tr, false))
    | some b =>
        if numSections inp ≤ b then (calculateCore inp (numSections inp)).map (fun tr => (tr, false))
        else if 0 < b then (calculateCore inp b).map (fun tr => (tr, true))
        else Except.error Result.ErrorExecutionTimeCalculation
  else Except.error Result.ErrorInvalidInput

/-- Modelled from the spec (Ruckig::calculate, offline use): one-shot
computation of the full trajectory. -/
def calculate (inp : InputParameter n) : Except Result (Trajectory n) :=
  (calculateWithBudget inp).map Prod.fst

/-- Modelled from the spec (§3 OutputParameter): the new kinematic state, the
trajectory time cursor, the active trajectory, and the calculation flags. -/
structure OutputParameter (n : ℕ) where
  new_position : Fin n → ℚ
  new_velocity : Fin n → ℚ
  new_acceleration : Fin n → ℚ
  time : ℚ
  new_calculation : Bool
  was_calculation_interrupted : Bool
  calculation_duration : ℕ
  trajectory : Trajectory n
deriving DecidableEq

/-- Modelled from the spec (§4.4 output side effects, §9): copy the new
position/velocity/acceleration into the next cycle's current state, leaving
every other input field untouched; ownership of the InputParameter stays with
the caller. -/
def OutputParameter.pass_to_input (out : OutputParameter n) (inp : InputParameter n) :
    InputParameter n :=
  { inp with
    current_position := out.new_position,
    current_velocity := out.new_velocity,
    current_acceleration := out.new_acceleration }

/-- Modelled from the spec (§4.4): per-instance state of the Online Controller:
the control cycle length, the input that produced the active trajectory (with
its current state advanced to the already-emitted prediction), the active
trajectory, and the time cursor. -/
structure RuckigState (n : ℕ) where
  delta_time : ℚ
  current_input : Option (InputParameter n)
  trajectory : Option (Trajectory n)
  time : ℚ
deriving DecidableEq

/-- Fresh Online Controller with control cycle δ (Ruckig's constructor). -/
def initialState (n : ℕ) (δ : ℚ) : RuckigState n := ⟨δ, none, none, 0⟩

/-- Abstract cost (in modelled microseconds) of a calculation: one unit per
computed section, capped by the budget. -/
def calcCost (inp : InputParameter n) : ℕ :=
  match inp.interrupt_calculation_duration with
  | none => numSections inp
  | some b => min (numSections inp) b

/-- Output of one cycle: the trajectory sampled at the cursor time τ. -/
def stepOutput (tr : Trajectory n) (τ : ℚ) (newCalc interrupted : Bool) (cost : ℕ) :
    OutputParameter n :=
  ⟨fun i => ((tr.at_time τ i).1).p, fun i => ((tr.at_time τ i).1).v,
   fun i => ((tr.at_time τ i).1).a, τ, newCalc, interrupted, cost, tr⟩

/-- Controller state after emitting `out`: the stored input's current state is
advanced to the emitted prediction, which is what makes an unchanged caller
input (after pass_to_input) skip recalculation (spec §4.4 step 1). -/
def advanceState (σ : RuckigState n) (inp : InputParameter n) (tr : Trajectory n)
    (τ : ℚ) (out : OutputParameter n) : RuckigState n :=
  ⟨σ.delta_time, some (out.pass_to_input inp), some tr, τ⟩

/-- Recalculation path of one update cycle (spec §4.4 steps 2-5). -/
def recalcStep (σ : RuckigState n) (inp : InputParameter n) :
    RuckigState n × Option (OutputParameter n) × Result :=
  match calculateWithBudget inp with
  | Except.error e => (σ, none, e)
  | Except.ok (tr, intr) =>
      (advanceState σ inp tr σ.delta_time (stepOutput tr σ.delta_time true intr (calcCost inp)),
       some (stepOutput tr σ.delta_time true intr (calcCost inp)),
       if σ.delta_time < tr.duration then Result.Working else Result.Finished)

/-- Modelled from the spec (§4.4 transition policy): one control-cycle call of
the Online Controller.  Recalculate when there is no active trajectory or the
caller's input differs from the stored one (a full content comparison);
otherwise advance the time cursor by one control cycle and sample the active
trajectory; on a calculation error, leave the state (time cursor included)
untouched and emit no output. -/
def update (σ : RuckigState n) (inp : InputParameter n) :
    RuckigState n × Option (OutputParameter n) × Result :=
  match σ.trajectory with
  | some tr =>
      if σ.current_input = some inp then
        (advanceState σ inp tr (σ.time + σ.delta_time)
           (stepOutput tr (σ.time + σ.delta_time) false false 0),
         some (stepOutput tr (σ.time + σ.delta_time) false false 0),
         if σ.time + σ.delta_time < tr.duration then Result.Working else Result.Finished)
      else recalcStep σ inp
  | none => recalcStep σ inp

/-- Decidable equality of calculation results. -/
instance {ε α : Type} [DecidableEq ε] [DecidableEq α] : DecidableEq (Except ε α) := fun x y =>
  match x, y with
  | Except.ok a, Except.ok b =>
      if h : a = b then Decidable.isTrue (by rw [h])
      else Decidable.isFalse (fun hc => h (Except.ok.inj hc))
  | Except.error a, Except.error b =>
      if h : a = b then Decidable.isTrue (by rw [h])
      else Decidable.isFalse (fun hc => h (Except.error.inj hc))
  | Except.ok _, Except.error _ => Decidable.isFalse (fun hc => by cases hc)
  | Except.error _, Except.ok _ => Decidable.isFalse (fun hc => by cases hc)

def c1v (x : ℚ) : Fin 1 → ℚ := fun _ => x

def inpA : InputParameter 1 :=
  { current_position := c1v 0, current_velocity := c1v 0, current_acceleration := c1v 0,
    target_position := c1v 3, target_velocity := c1v 0, target_acceleration := c1v 0,
    max_velocity := c1v 1, max_acceleration := c1v 1, max_jerk := c1v 1 }

def trA : Trajectory 1 := assemble inpA 1

/-- Constant per-axis vector for a two-axis system. -/
def c2v (x y : ℚ) : Fin 2 → ℚ := fun i => if i.val = 0 then x else y

/-- Invalid variant of the basic input: a negative jerk limit. -/
def inpBad : InputParameter 1 := { inpA with max_jerk := c1v (-1) }

/-- Fresh single-axis controller with a 10 ms control cycle. -/
def sA : RuckigState 1 := initialState 1 (1/100)

/-- Output of the first cycle on the basic input: the freshly computed
trajectory sampled one control cycle in, with the new-calculation flag
raised. -/
def oA1 : OutputParameter 1 := stepOutput trA sA.delta_time true false (calcCost inpA)

/-- Controller state after the first cycle on the basic input. -/
def sA1 : RuckigState 1 := advanceState sA inpA trA sA.delta_time oA1

/-- Two-axis unsynchronized input with different per-axis minimal times. -/
def inpB : InputParameter 2 :=
  { current_position := c2v 0 0, current_velocity := c2v 0 0, current_acceleration := c2v 0 0,
    target_position := c2v 3 4, target_velocity := c2v 0 0, target_acceleration := c2v 0 0,
    max_velocity := c2v 1 1, max_acceleration := c2v 1 1, max_jerk := c2v 1 1,
    synchronization := Synchronization.None }

def trB : Trajectory 2 := assemble inpB 1

/-- Two-axis input with one waypoint and a global minimum duration that exceeds
both axes' unconstrained minimal times but not the per-section synchronized
total. -/
def inpC5 : InputParameter 2 :=
  { current_position := c2v 0 0, current_velocity := c2v 0 0, current_acceleration := c2v 0 0,
    target_position := c2v 12 12, target_velocity := c2v 0 0, target_acceleration := c2v 0 0,
    max_velocity := c2v 1 1, max_acceleration := c2v 1 1, max_jerk := c2v 1 1,
    intermediate_positions := [c2v 10 2],
    minimum_duration := some 20 }

def trC5 : Trajectory 2 := assemble inpC5 2

/-- Basic input with a global minimum duration above its minimal time. -/
def inpD : InputParameter 1 := { inpA with minimum_duration := some 7 }

def trD : Trajectory 1 := assemble inpD 1

/-- Single-axis input with one waypoint. -/
def inpE : InputParameter 1 :=
  { current_position := c1v 0, current_velocity := c1v 0, current_acceleration := c1v 0,
    target_position := c1v 4, target_velocity := c1v 0, target_acceleration := c1v 0,
    max_velocity := c1v 1, max_acceleration := c1v 1, max_jerk := c1v 1,
    intermediate_positions := [c1v 2] }

def trE : Trajectory 1 := assemble inpE 2

/-- Single-axis input with one waypoint and a per-section duration floor on the
first section. -/
def inpF : InputParameter 1 := { inpE with per_section_minimum_duration := [5, 0] }

def trF : Trajectory 1 := assemble inpF 2

/-- Single-axis input with two waypoints and a one-microsecond budget. -/
def inpG : InputParameter 1 :=
  { current_position := c1v 0, current_velocity := c1v 0, current_acceleration := c1v 0,
    target_position := c1v 6, target_velocity := c1v 0, target_acceleration := c1v 0,
    max_velocity := c1v 1, max_acceleration := c1v 1, max_jerk := c1v 1,
    intermediate_positions := [c1v 2, c1v 4],
    interrupt_calculation_duration := some 1 }

def trG : Trajectory 1 := assemble inpG 1

/-- Value of the quadratic at 0 is its constant coefficient. -/
theorem quadF_zero (j a v : ℚ) : quadF j a v 0 = v := by
  unfold quadF; ring

/-- With zero quadratic coefficient, quadF is the linear function v + a·τ. -/
theorem quadF_lin (a v τ : ℚ) : quadF 0 a v τ = v + a*τ := by
  unfold quadF; ring

/-- Soundness of the quadratic range check for a nonnegative (convex) leading
coefficient: the checked endpoint and critical-point values bound the quadratic
on the whole interval. -/
theorem quadCheck_sound_nonneg (j a v lo hi d : ℚ) (hj : 0 ≤ j)
    (h : quadCheck j a v lo hi d) :
    ∀ τ, 0 ≤ τ → τ ≤ d → lo ≤ quadF j a v τ ∧ quadF j a v τ ≤ hi := by
  obtain ⟨⟨h0lo, h0hi⟩, ⟨hdlo, hdhi⟩, hvert⟩ := h
  intro τ hτ0 hτd
  have hd : 0 ≤ d := le_trans hτ0 hτd
  have hupper : quadF j a v τ ≤ hi := by
    rcases eq_or_lt_of_le hd with hd0 | hdpos
    · have hτ : τ = 0 := le_antisymm (by rw [← hd0] at hτd; exact hτd) hτ0
      rw [hτ, quadF_zero]; exact h0hi
    · unfold quadF at hdhi ⊢
      nlinarith [mul_nonneg (mul_nonneg hj hτ0) (sub_nonneg.mpr hτd),
        mul_nonneg (sub_nonneg.mpr hτd) (sub_nonneg.mpr h0hi),
        mul_nonneg hτ0 (sub_nonneg.mpr hdhi)]
  have hlower : lo ≤ quadF j a v τ := by
    by_cases ha : 0 ≤ a
    · unfold quadF
      nlinarith [mul_nonneg hτ0 ha, mul_nonneg (mul_nonneg hj hτ0) hτ0]
    · by_cases had : a + j*d ≤ 0
      · have hjτ : j*τ ≤ j*d := mul_le_mul_of_nonneg_left hτd hj
        have hsum : a + j*(d+τ)/2 ≤ 0 := by linarith
        unfold quadF at hdlo ⊢
        nlinarith [mul_nonneg (sub_nonneg.mpr hτd) (neg_nonneg.mpr hsum)]
      · have hj0 : 0 < j := by
          rcases eq_or_lt_of_le hj with hj' | hj'
          · exfalso; rw [← hj'] at had; simp at had; exact ha (le_of_lt (by linarith))
          · exact hj'
        have hts0 : 0 < -a/j := div_pos (neg_pos.mpr (not_le.mp ha)) hj0
        have htsd : -a/j < d := by
          rw [div_lt_iff₀ hj0]; linarith [not_le.mp had]
        have hv := (hvert (ne_of_gt hj0) hts0 htsd).1
        have hexp : quadF j a v τ - quadF j a v (-a/j) = (a + j*τ)^2/(2*j) := by
          unfold quadF; field_simp; ring
        have hq : 0 ≤ (a + j*τ)^2/(2*j) :=
          div_nonneg (sq_nonneg _) (by linarith)
        linarith
  exact ⟨hlower, hupper⟩

/-- The quadratic range check is symmetric under global negation. -/
theorem quadCheck_neg (j a v lo hi d : ℚ) (h : quadCheck j a v lo hi d) :
    quadCheck (-j) (-a) (-v) (-hi) (-lo) d := by
  obtain ⟨⟨h0lo, h0hi⟩, ⟨hdlo, hdhi⟩, hvert⟩ := h
  have hflip : ∀ τ, quadF (-j) (-a) (-v) τ = -(quadF j a v τ) := by
    intro τ; unfold quadF; ring
  have hvtx : -(-a)/(-j) = -a/j := by ring
  refine ⟨⟨by linarith, by linarith⟩, ⟨by rw [hflip]; linarith, by rw [hflip]; linarith⟩, ?_⟩
  intro hne h1 h2
  rw [hvtx] at h1 h2
  have := hvert (fun hz => hne (by rw [hz]; ring)) h1 h2
  rw [hvtx, hflip]
  exact ⟨by linarith [this.2], by linarith [this.1]⟩

/-- Soundness of the quadratic range check (spec §8 Boundedness): if both
endpoints and the interior critical point (when present) are within [lo, hi],
the quadratic stays within [lo, hi] on all of [0, d]. -/
theorem quadCheck_sound (j a v lo hi d : ℚ) (h : quadCheck j a v lo hi d) :
    ∀ τ, 0 ≤ τ → τ ≤ d → lo ≤ quadF j a v τ ∧ quadF j a v τ ≤ hi := by
  intro τ hτ0 hτd
  rcases le_or_lt 0 j with hj | hj
  · exact quadCheck_sound_nonneg j a v lo hi d hj h τ hτ0 hτd
  · have h' := quadCheck_sound_nonneg (-j) (-a) (-v) (-hi) (-lo) d
      (by linarith) (quadCheck_neg j a v lo hi d h) τ hτ0 hτd
    have hflip : quadF (-j) (-a) (-v) τ = -(quadF j a v τ) := by unfold quadF; ring
    rw [hflip] at h'
    exact ⟨by linarith [h'.2], by linarith [h'.1]⟩

/-- A constant-jerk step over a zero time span leaves the state unchanged. -/
theorem kinStep_zero (k : Kin) (j : ℚ) : kinStep k j 0 = k := by
  unfold kinStep
  cases k
  simp

/-- Nonnegative segment durations sum to a nonnegative total. -/
theorem sumDur_nonneg (segs : List Seg) (h : ∀ s ∈ segs, 0 ≤ s.t) : 0 ≤ sumDur segs := by
  unfold sumDur
  apply List.sum_nonneg
  intro x hx
  obtain ⟨s, hs, rfl⟩ := List.mem_map.mp hx
  exact h s hs

/-- Total duration of a concatenation. -/
theorem sumDur_append (l1 l2 : List Seg) : sumDur (l1 ++ l2) = sumDur l1 + sumDur l2 := by
  unfold sumDur
  rw [List.map_append, List.sum_append]

/-- Total duration of a flattened list of sections. -/
theorem sumDur_flatten (l : List (List Seg)) :
    sumDur l.flatten = (l.map sumDur).sum := by
  induction l with
  | nil => rfl
  | cons a l ih => rw [List.flatten_cons, sumDur_append, List.map_cons, List.sum_cons, ih]

/-- End state of a concatenation chains through the intermediate state. -/
theorem endState_append (k : Kin) (l1 l2 : List Seg) :
    endState k (l1 ++ l2) = endState (endState k l1) l2 := by
  unfold endState
  exact List.foldl_append segEnd k l1 l2

/-- Evaluation at or past the total duration yields the final state, with zero
jerk reported. -/
theorem atTime_past (segs : List Seg) : ∀ (k : Kin) (τ : ℚ), (∀ s ∈ segs, 0 ≤ s.t) →
    sumDur segs ≤ τ → atTime k segs τ = (endState k segs, 0) := by
  induction segs with
  | nil => intro k τ _ _; rfl
  | cons s rest ih =>
      intro k τ hnn hτ
      have hrest : 0 ≤ sumDur rest := sumDur_nonneg rest (fun x hx => hnn x (List.mem_cons_of_mem s hx))
      have hsum : sumDur (s :: rest) = s.t + sumDur rest := by
        unfold sumDur; rw [List.map_cons, List.sum_cons]
      have hst : s.t ≤ τ := by rw [hsum] at hτ; linarith
      unfold atTime
      rw [if_neg (not_lt.mpr hst)]
      have : endState k (s :: rest) = endState (segEnd k s) rest := rfl
      rw [this]
      exact ih (segEnd k s) (τ - s.t) (fun x hx => hnn x (List.mem_cons_of_mem s hx))
        (by rw [hsum] at hτ; linarith)

/-- Evaluation past a whole block of segments continues in the remaining ones,
with the time shifted by the block's duration. -/
theorem atTime_append (l1 : List Seg) : ∀ (l2 : List Seg) (k : Kin) (τ : ℚ),
    (∀ s ∈ l1, 0 ≤ s.t) → sumDur l1 ≤ τ →
    atTime k (l1 ++ l2) τ = atTime (endState k l1) l2 (τ - sumDur l1) := by
  induction l1 with
  | nil =>
      intro l2 k τ _ _
      have h0 : sumDur ([] : List Seg) = 0 := rfl
      rw [h0, sub_zero]
      rfl
  | cons s rest ih =>
      intro l2 k τ hnn hτ
      have hrest : 0 ≤ sumDur rest := sumDur_nonneg rest (fun x hx => hnn x (List.mem_cons_of_mem s hx))
      have hsum : sumDur (s :: rest) = s.t + sumDur rest := by
        unfold sumDur; rw [List.map_cons, List.sum_cons]
      have hst : s.t ≤ τ := by rw [hsum] at hτ; linarith
      have hstep : atTime k (s :: (rest ++ l2)) τ = atTime (segEnd k s) (rest ++ l2) (τ - s.t) := by
        simp only [atTime]
        rw [if_neg (not_lt.mpr hst)]
      have hcons : (s :: rest) ++ l2 = s :: (rest ++ l2) := rfl
      rw [hcons, hstep, ih l2 (segEnd k s) (τ - s.t)
        (fun x hx => hnn x (List.mem_cons_of_mem s hx)) (by rw [hsum] at hτ; linarith)]
      have hend : endState k (s :: rest) = endState (segEnd k s) rest := rfl
      rw [hend, hsum]
      congr 1
      ring

/-- Evaluation at time 0 yields the initial state (zero-duration leading
segments change nothing). -/
theorem atTime_zero_state (segs : List Seg) : ∀ (k : Kin), (∀ s ∈ segs, 0 ≤ s.t) →
    (atTime k segs 0).1 = k := by
  induction segs with
  | nil => intro k _; rfl
  | cons s rest ih =>
      intro k hnn
      by_cases hs : 0 < s.t
      · unfold atTime
        rw [if_pos hs]
        exact kinStep_zero k s.j
      · have hs0 : s.t = 0 := le_antisymm (not_lt.mp hs) (hnn s (List.mem_cons_self s rest))
        unfold atTime
        rw [if_neg (by rw [hs0]; exact lt_irrefl 0)]
        have hend : segEnd k s = k := by unfold segEnd; rw [hs0]; exact kinStep_zero k s.j
        rw [hs0, sub_zero, hend]
        exact ih k (fun x hx => hnn x (List.mem_cons_of_mem s hx))

/-- Every duration in a checked phase list is nonnegative. -/
theorem segsCheck_durs (L : Limits) : ∀ (k : Kin) (segs : List Seg),
    segsCheck L k segs → ∀ s ∈ segs, 0 ≤ s.t := by
  intro k segs
  induction segs generalizing k with
  | nil => intro _ s hs; cases hs
  | cons s rest ih =>
      intro h x hx
      obtain ⟨hseg, hrest⟩ := h
      rcases List.mem_cons.mp hx with hx | hx
      · rw [hx]; exact hseg.1
      · exact ih (segEnd k s) hrest x hx

/-- Velocity component of a constant-jerk step is the checked quadratic. -/
theorem kinStep_v (k : Kin) (j τ : ℚ) : (kinStep k j τ).v = quadF j k.a k.v τ := rfl

/-- Acceleration component of a constant-jerk step is the checked linear
function. -/
theorem kinStep_a (k : Kin) (j τ : ℚ) : (kinStep k j τ).a = quadF 0 j k.a τ := by
  unfold kinStep quadF
  simp

/-- The end state of a checked phase still satisfies the bounds. -/
theorem segCheck_end (L : Limits) (k : Kin) (s : Seg) (h : segCheck L k s) :
    kinBounds L (segEnd k s) := by
  obtain ⟨ht, hj, hacc, hvel⟩ := h
  have hv := quadCheck_sound s.j k.a k.v L.vmin L.vmax s.t hvel s.t ht le_rfl
  have ha := quadCheck_sound 0 s.j k.a L.amin L.amax s.t hacc s.t ht le_rfl
  unfold segEnd
  refine ⟨?_, ?_, ?_, ?_⟩
  · rw [kinStep_v]; exact hv.1
  · rw [kinStep_v]; exact hv.2
  · rw [kinStep_a]; exact ha.1
  · rw [kinStep_a]; exact ha.2

/-- Soundness of the phase-list check (spec §8 Boundedness): at every
nonnegative time, the evaluated velocity and acceleration are inside the limit
ranges and the evaluated jerk magnitude is within the jerk bound. -/
theorem segsCheck_sound (L : Limits) (hjm : 0 ≤ L.jmax) : ∀ (k : Kin) (segs : List Seg),
    segsCheck L k segs → kinBounds L k → ∀ τ, 0 ≤ τ →
    kinBounds L (atTime k segs τ).1 ∧ |(atTime k segs τ).2| ≤ L.jmax := by
  intro k segs
  induction segs generalizing k with
  | nil =>
      intro _ hk τ _
      refine ⟨hk, ?_⟩
      show |(0:ℚ)| ≤ L.jmax
      rw [abs_zero]
      exact hjm
  | cons s rest ih =>
      intro h hk τ hτ
      obtain ⟨hseg, hrest⟩ := h
      by_cases hlt : τ < s.t
      · have hvel := quadCheck_sound s.j k.a k.v L.vmin L.vmax s.t hseg.2.2.2 τ hτ (le_of_lt hlt)
        have hacc := quadCheck_sound 0 s.j k.a L.amin L.amax s.t hseg.2.2.1 τ hτ (le_of_lt hlt)
        have heval : atTime k (s :: rest) τ = (kinStep k s.j τ, s.j) := by
          simp only [atTime]
          rw [if_pos hlt]
        rw [heval]
        refine ⟨⟨?_, ?_, ?_, ?_⟩, hseg.2.1⟩
        · rw [kinStep_v]; exact hvel.1
        · rw [kinStep_v]; exact hvel.2
        · rw [kinStep_a]; exact hacc.1
        · rw [kinStep_a]; exact hacc.2
      · have heval : atTime k (s :: rest) τ = atTime (segEnd k s) rest (τ - s.t) := by
          simp only [atTime]
          rw [if_neg hlt]
        rw [heval]
        exact ih (segEnd k s) hrest (segCheck_end L k s hseg) (τ - s.t)
          (by linarith [not_lt.mp hlt])

/-- Soundness of the full profile check: the evaluated state and jerk respect
the limits at every nonnegative time. -/
theorem profileCheck_sound (L : Limits) (init : Kin) (segs : List Seg)
    (h : profileCheck L init segs) : ∀ τ, 0 ≤ τ →
    kinBounds L (atTime init segs τ).1 ∧ |(atTime init segs τ).2| ≤ L.jmax := by
  obtain ⟨hj, hk, hs⟩ := h
  exact fun τ hτ => segsCheck_sound L hj init segs hs hk τ hτ

/-- A successful budgeted calculation validated its input and produced a
verified m-section assembly, with m following the budget policy. -/
theorem calcOk (inp : InputParameter n) (tr : Trajectory n) (intr : Bool)
    (h : calculateWithBudget inp = Except.ok (tr, intr)) :
    validateInput inp ∧ ∃ m, tr = assemble inp m ∧ finalCheck inp m ∧ 0 < m ∧
      m ≤ numSections inp ∧ (intr = false → m = numSections inp) := by
  unfold calculateWithBudget at h
  by_cases hval : validateInput inp
  · rw [if_pos hval] at h
    refine ⟨hval, ?_⟩
    have core : ∀ m fl, (calculateCore inp m).map (fun t => (t, fl)) = Except.ok (tr, intr) →
        tr = assemble inp m ∧ finalCheck inp m ∧ intr = fl := by
      intro m fl hc
      unfold calculateCore at hc
      by_cases hf : finalCheck inp m
      · rw [if_pos hf] at hc
        simp only [Except.map, Except.ok.injEq, Prod.mk.injEq] at hc
        exact ⟨hc.1.symm, hf, hc.2.symm⟩
      · rw [if_neg hf] at hc
        simp only [Except.map] at hc
        cases hc
    cases hb : inp.interrupt_calculation_duration with
    | none =>
        rw [hb] at h
        dsimp only at h
        obtain ⟨h1, h2, _⟩ := core (numSections inp) false h
        exact ⟨numSections inp, h1, h2, Nat.succ_pos _, le_rfl, fun _ => rfl⟩
    | some b =>
        rw [hb] at h
        dsimp only at h
        by_cases hsb : numSections inp ≤ b
        · rw [if_pos hsb] at h
          obtain ⟨h1, h2, _⟩ := core (numSections inp) false h
          exact ⟨numSections inp, h1, h2, Nat.succ_pos _, le_rfl, fun _ => rfl⟩
        · rw [if_neg hsb] at h
          by_cases hb0 : 0 < b
          · rw [if_pos hb0] at h
            obtain ⟨h1, h2, h3⟩ := core b true h
            exact ⟨b, h1, h2, hb0, Nat.le_of_lt (Nat.lt_of_not_le hsb),
              fun hc => by rw [h3] at hc; cases hc⟩
          · rw [if_neg hb0] at h; cases h
  · rw [if_neg hval] at h; cases h

/-- The fold maximum is nonnegative. -/
theorem foldMax_nonneg (l : List ℚ) : 0 ≤ foldMax l := by
  induction l with
  | nil => exact le_refl 0
  | cons x l ih => exact le_trans ih (le_max_right x (foldMax l))

/-- Every list element is below the fold maximum. -/
theorem le_foldMax (l : List ℚ) : ∀ x ∈ l, x ≤ foldMax l := by
  induction l with
  | nil => intro x hx; cases hx
  | cons y l ih =>
      intro x hx
      rcases List.mem_cons.mp hx with hx | hx
      · rw [hx]; exact le_max_left y (foldMax l)
      · exact le_trans (ih x hx) (le_max_right y (foldMax l))

/-- The fold maximum is below any nonnegative common upper bound. -/
theorem foldMax_le (l : List ℚ) (c : ℚ) (h0 : 0 ≤ c) (h : ∀ x ∈ l, x ≤ c) :
    foldMax l ≤ c := by
  induction l with
  | nil => exact h0
  | cons y l ih =>
      exact max_le (h y (List.mem_cons_self y l))
        (ih (fun x hx => h x (List.mem_cons_of_mem y hx)))

/-- All durations of a rest-to-rest candidate profile are nonnegative. -/
theorem restProfile_durs (d V A J : ℚ) (segs : List Seg)
    (h : restProfile d V A J = some segs) : ∀ s ∈ segs, 0 ≤ s.t := by
  unfold restProfile at h
  by_cases hd : d = 0
  · rw [if_pos hd] at h
    obtain rfl := Option.some.inj h
    intro s hs; cases hs
  · rw [if_neg hd] at h
    by_cases hg : 0 < V ∧ 0 < A ∧ 0 < J ∧ A^2/J ≤ V ∧ V*(V/A + A/J) ≤ d
    · rw [if_pos hg] at h
      obtain rfl := Option.some.inj h
      obtain ⟨hV, hA, hJ, hAV, hVd⟩ := hg
      have h1 : (0:ℚ) ≤ A/J := le_of_lt (div_pos hA hJ)
      have h2 : (0:ℚ) ≤ V/A - A/J := by
        rw [sub_nonneg, div_le_div_iff₀ hJ hA]
        rw [div_le_iff₀ hJ] at hAV
        nlinarith
      have h3 : (0:ℚ) ≤ (d - V*(V/A + A/J))/V := div_nonneg (by linarith) (le_of_lt hV)
      intro s hs
      simp only [List.mem_cons, List.mem_singleton] at hs
      rcases hs with rfl | rfl | rfl | rfl | rfl | rfl | rfl | h'
      all_goals first
        | exact h1
        | exact h2
        | exact h3
        | cases h'
    · rw [if_neg hg] at h; cases h
  
/-- All durations of a velocity-ramp candidate are nonnegative. -/
theorem velRamp_durs (w A J : ℚ) (segs : List Seg)
    (h : velRamp w A J = some segs) : ∀ s ∈ segs, 0 ≤ s.t := by
  unfold velRamp at h
  by_cases hw : w = 0
  · rw [if_pos hw] at h
    obtain rfl := Option.some.inj h
    intro s hs; cases hs
  · rw [if_neg hw] at h
    by_cases hg : 0 < A ∧ 0 < J ∧ A^2/J ≤ w
    · rw [if_pos hg] at h
      obtain rfl := Option.some.inj h
      obtain ⟨hA, hJ, hAw⟩ := hg
      have h1 : (0:ℚ) ≤ A/J := le_of_lt (div_pos hA hJ)
      have h2 : (0:ℚ) ≤ w/A - A/J := by
        rw [sub_nonneg, div_le_div_iff₀ hJ hA]
        rw [div_le_iff₀ hJ] at hAw
        nlinarith
      intro s hs
      simp only [List.mem_cons, List.mem_singleton] at hs
      rcases hs with rfl | rfl | rfl | h'
      · exact h1
      · exact h2
      · exact h1
      · cases h'
    · rw [if_neg hg] at h; cases h

/-- Mirroring preserves durations. -/
theorem mirrorSegs_durs (segs : List Seg) (h : ∀ s ∈ segs, 0 ≤ s.t) :
    ∀ s ∈ mirrorSegs segs, 0 ≤ s.t := by
  intro s hs
  obtain ⟨x, hx, rfl⟩ := List.mem_map.mp hs
  exact h x hx

/-- All durations of a solved section are nonnegative. -/
theorem solveSection_durs (inp : InputParameter n) (i : Fin n) (k : ℕ) (segs : List Seg)
    (h : solveSection inp i k = some segs) : ∀ s ∈ segs, 0 ≤ s.t := by
  unfold solveSection at h
  cases hci : inp.control_interface with
  | Position =>
      rw [hci] at h
      dsimp only at h
      by_cases hrest : inp.current_velocity i = 0 ∧ inp.current_acceleration i = 0 ∧
          inp.target_velocity i = 0 ∧ inp.target_acceleration i = 0
      · rw [if_pos hrest] at h
        unfold solvePositionStep at h
        by_cases hdir : 0 ≤ ((pathPoints inp i).getD (k+1) 0) - ((pathPoints inp i).getD k 0)
        · rw [if_pos hdir] at h
          exact restProfile_durs _ _ _ _ segs h
        · rw [if_neg hdir] at h
          obtain ⟨base, hbase, rfl⟩ := Option.map_eq_some'.mp h
          exact mirrorSegs_durs base (restProfile_durs _ _ _ _ base hbase)
      · rw [if_neg hrest] at h; cases h
  | Velocity =>
      rw [hci] at h
      dsimp only at h
      by_cases hrest : inp.current_velocity i = 0 ∧ inp.current_acceleration i = 0
      · rw [if_pos hrest] at h
        unfold solveVelocityStep at h
        by_cases ha0 : inp.target_acceleration i = 0
        · rw [if_pos ha0] at h
          by_cases hv0 : 0 ≤ inp.target_velocity i
          · rw [if_pos hv0] at h
            by_cases hvm : inp.target_velocity i ≤ (inp.limits i).vmax
            · rw [if_pos hvm] at h
              exact velRamp_durs _ _ _ segs h
            · rw [if_neg hvm] at h; cases h
          · rw [if_neg hv0] at h
            by_cases hvm : (inp.limits i).vmin ≤ inp.target_velocity i
            · rw [if_pos hvm] at h
              obtain ⟨base, hbase, rfl⟩ := Option.map_eq_some'.mp h
              exact mirrorSegs_durs base (velRamp_durs _ _ _ base hbase)
            · rw [if_neg hvm] at h; cases h
        · rw [if_neg ha0] at h; cases h
      · rw [if_neg hrest] at h; cases h

/-- The minimal duration of a section is nonnegative. -/
theorem minSectionDur_nonneg (inp : InputParameter n) (i : Fin n) (k : ℕ) :
    0 ≤ minSectionDur inp i k := by
  unfold minSectionDur
  cases hs : solveSection inp i k with
  | none => simp
  | some segs =>
      simp only [Option.map_some', Option.getD_some]
      exact sumDur_nonneg segs (solveSection_durs inp i k segs hs)

/-- Block durations are nonnegative. -/
theorem blockDuration_nonneg (inp : InputParameter n) (k : ℕ) : 0 ≤ blockDuration inp k :=
  le_trans (foldMax_nonneg _) (le_max_right _ _)

/-- The pre-floor total duration is nonnegative. -/
theorem rawDuration_nonneg (inp : InputParameter n) (m : ℕ) : 0 ≤ rawDuration inp m := by
  unfold rawDuration
  apply List.sum_nonneg
  intro x hx
  obtain ⟨k, _, rfl⟩ := List.mem_map.mp hx
  exact blockDuration_nonneg inp k

/-- Adjusted block durations are nonnegative and at least the raw block. -/
theorem blockDuration_le_adjusted (inp : InputParameter n) (m k : ℕ) :
    blockDuration inp k ≤ adjustedBlock inp m k := by
  unfold adjustedBlock
  by_cases hc : k + 1 = m ∧ rawDuration inp m < (inp.minimum_duration).getD 0
  · rw [if_pos hc]; linarith [hc.2]
  · rw [if_neg hc]

/-- Adjusted block durations are nonnegative. -/
theorem adjustedBlock_nonneg (inp : InputParameter n) (m k : ℕ) :
    0 ≤ adjustedBlock inp m k :=
  le_trans (blockDuration_nonneg inp k) (blockDuration_le_adjusted inp m k)

/-- The adjusted blocks sum to the synchronized duration. -/
theorem adjustedBlock_sum (inp : InputParameter n) (m : ℕ) (hm : 0 < m) :
    ((List.range m).map (adjustedBlock inp m)).sum = syncDuration inp m := by
  obtain ⟨m', rfl⟩ : ∃ m', m = m' + 1 := ⟨m - 1, (Nat.succ_pred_eq_of_pos hm).symm⟩
  have hsplit : List.range (m' + 1) = List.range m' ++ [m'] := List.range_succ m'
  have hraw : rawDuration inp (m'+1) =
      ((List.range m').map (blockDuration inp)).sum + blockDuration inp m' := by
    unfold rawDuration
    rw [hsplit, List.map_append, List.sum_append]
    simp
  have hsame : ∀ k ∈ List.range m', adjustedBlock inp (m'+1) k = blockDuration inp k := by
    intro k hk
    have hklt : k < m' := List.mem_range.mp hk
    unfold adjustedBlock
    rw [if_neg]
    rintro ⟨hk1, _⟩
    omega
  rw [hsplit, List.map_append, List.sum_append, List.map_singleton, List.sum_singleton,
    List.map_congr_left hsame]
  unfold adjustedBlock syncDuration
  cases hmd : inp.minimum_duration with
  | none =>
      simp only [Option.getD_none, max_self]
      rw [if_neg]
      · rw [hraw]
      · rintro ⟨_, hlt⟩
        exact absurd hlt (not_lt.mpr (rawDuration_nonneg inp (m'+1)))
  | some D =>
      simp only [Option.getD_some]
      by_cases hflo : rawDuration inp (m'+1) < D
      · rw [if_pos ⟨by trivial, hflo⟩, max_eq_right (le_of_lt hflo)]
        rw [hraw] at hflo ⊢
        linarith
      · rw [if_neg (fun hc => hflo hc.2), max_eq_left (not_lt.mp hflo), hraw]

/-- Partial sums of a nonnegative function over ranges are monotone. -/
theorem range_map_sum_mono (f : ℕ → ℚ) (hf : ∀ k, 0 ≤ f k) {a b : ℕ} (h : a ≤ b) :
    ((List.range a).map f).sum ≤ ((List.range b).map f).sum := by
  induction b with
  | zero =>
      have : a = 0 := Nat.le_zero.mp h
      rw [this]
  | succ b ih =>
      rcases Nat.lt_or_ge a (b+1) with hab | hab
      · have hb : a ≤ b := Nat.lt_succ_iff.mp hab
        calc ((List.range a).map f).sum ≤ ((List.range b).map f).sum := ih hb
          _ ≤ ((List.range (b+1)).map f).sum := by
              rw [List.range_succ b, List.map_append, List.sum_append]
              simp only [List.map_singleton, List.sum_singleton]
              linarith [hf b]
      · have : a = b + 1 := Nat.le_antisymm h hab
        rw [this]

/-- Section k of a built axis, read off by index. -/
theorem buildAxis_getD (inp : InputParameter n) (m : ℕ) (i : Fin n) (k : ℕ) (hk : k < m) :
    (buildAxis inp m i).sections.getD k [] = sectionSegsAt inp m k i := by
  unfold buildAxis
  simp only [List.getD_eq_getElem?_getD, List.getElem?_map, List.getElem?_range hk,
    Option.map_some', Option.getD_some]

/-- A built axis has exactly m sections. -/
theorem buildAxis_length (inp : InputParameter n) (m : ℕ) (i : Fin n) :
    (buildAxis inp m i).sections.length = m := by
  unfold buildAxis
  simp

/-- Total duration of the first q sections of a built axis, when every section
of the (synchronized) build matches its adjusted block duration. -/
theorem take_flatten_dur (inp : InputParameter n) (m : ℕ) (i : Fin n)
    (hblk : ∀ k ∈ List.range m,
      sumDur ((buildAxis inp m i).sections.getD k []) = adjustedBlock inp m k)
    (q : ℕ) (hq : q ≤ m) :
    sumDur (((buildAxis inp m i).sections.take q).flatten) =
      ((List.range q).map (adjustedBlock inp m)).sum := by
  have htake : (buildAxis inp m i).sections.take q =
      (List.range q).map (fun k => sectionSegsAt inp m k i) := by
    unfold buildAxis
    rw [← List.map_take, List.take_range, min_eq_left hq]
  rw [htake, sumDur_flatten, List.map_map]
  have hcong : List.map (sumDur ∘ fun k => sectionSegsAt inp m k i) (List.range q) =
      List.map (adjustedBlock inp m) (List.range q) := by
    apply List.map_congr_left
    intro k hk
    have hkq : k < q := List.mem_range.mp hk
    have hkm : k < m := lt_of_lt_of_le hkq hq
    have hb := hblk k (List.mem_range.mpr hkm)
    rw [buildAxis_getD inp m i k hkm] at hb
    simpa using hb
  rw [hcong]

/-- C10: OutputParameter.pass_to_input writes only the current kinematic state
of the InputParameter (current position/velocity/acceleration receive the new
values); every other input field — targets, limits, waypoints, per-section and
global duration settings, control interface, synchronization mode and the
calculation budget — is left unchanged, so values the caller set before the
loop persist across cycles. -/
theorem pass_to_input_frame (out : OutputParameter n) (inp : InputParameter n) :
    (out.pass_to_input inp).current_position = out.new_position ∧
    (out.pass_to_input inp).current_velocity = out.new_velocity ∧
    (out.pass_to_input inp).current_acceleration = out.new_acceleration ∧
    (out.pass_to_input inp).target_position = inp.target_position ∧
    (out.pass_to_input inp).target_velocity = inp.target_velocity ∧
    (out.pass_to_input inp).target_acceleration = inp.target_acceleration ∧
    (out.pass_to_input inp).max_velocity = inp.max_velocity ∧
    (out.pass_to_input inp).max_acceleration = inp.max_acceleration ∧
    (out.pass_to_input inp).max_jerk = inp.max_jerk ∧
    (out.pass_to_input inp).min_velocity = inp.min_velocity ∧
    (out.pass_to_input inp).min_acceleration = inp.min_acceleration ∧
    (out.pass_to_input inp).intermediate_positions = inp.intermediate_positions ∧
    (out.pass_to_input inp).per_section_minimum_duration = inp.per_section_minimum_duration ∧
    (out.pass_to_input inp).minimum_duration = inp.minimum_duration ∧
    (out.pass_to_input inp).control_interface = inp.control_interface ∧
    (out.pass_to_input inp).synchronization = inp.synchronization ∧
    (out.pass_to_input inp).interrupt_calculation_duration = inp.interrupt_calculation_duration :=
  ⟨rfl, rfl, rfl, rfl, rfl, rfl, rfl, rfl, rfl, rfl, rfl, rfl, rfl, rfl, rfl, rfl, rfl⟩

/-- An invalid input makes the budgeted calculation fail with InvalidInput. -/
theorem calcInvalid (inp : InputParameter n) (h : ¬ validateInput inp) :
    calculateWithBudget inp = Except.error Result.ErrorInvalidInput := by
  unfold calculateWithBudget
  rw [if_neg h]

/-- On any error result, an update leaves the controller state untouched and
emits no output. -/
theorem update_error_state (σ : RuckigState n) (inp : InputParameter n)
    (σ' : RuckigState n) (o : Option (OutputParameter n)) (r : Result)
    (h : update σ inp = (σ', o, r)) (hW : r ≠ Result.Working) (hF : r ≠ Result.Finished) :
    σ' = σ ∧ o = none := by
  unfold update at h
  have herr : recalcStep σ inp = (σ', o, r) → σ' = σ ∧ o = none := by
    intro h'
    unfold recalcStep at h'
    cases hc : calculateWithBudget inp with
    | error e =>
        rw [hc] at h'
        simp only [Prod.mk.injEq] at h'
        exact ⟨h'.1.symm, h'.2.1.symm⟩
    | ok pr =>
        rw [hc] at h'
        obtain ⟨p1, p2⟩ := pr
        dsimp only at h'
        simp only [Prod.mk.injEq] at h'
        exfalso
        by_cases hlt : σ.delta_time < p1.duration
        · rw [if_pos hlt] at h'; exact hW h'.2.2.symm
        · rw [if_neg hlt] at h'; exact hF h'.2.2.symm
  revert h
  cases htr : σ.trajectory with
  | some tr =>
      intro h
      dsimp only at h
      by_cases hin : σ.current_input = some inp
      · rw [if_pos hin] at h
        simp only [Prod.mk.injEq] at h
        exfalso
        by_cases hlt : σ.time + σ.delta_time < tr.duration
        · rw [if_pos hlt] at h; exact hW h.2.2.symm
        · rw [if_neg hlt] at h; exact hF h.2.2.symm
      · rw [if_neg hin] at h
        exact herr h
  | none =>
      intro h
      dsimp only at h
      exact herr h

/-- C4: whenever the Online Controller's update fails with InvalidInput or an
infeasibility error, the error is a status value distinct from Working and
Finished (returned, never thrown), no output (hence no usable trajectory) is
emitted and the controller state — its time cursor included — is unchanged;
in particular malformed limits are detected as InvalidInput rather than
silently clamped. -/
theorem update_error_frozen (σ : RuckigState n) (inp : InputParameter n) :
    (∀ σ' o r, update σ inp = (σ', o, r) → r ≠ Result.Working → r ≠ Result.Finished →
      σ' = σ ∧ o = none ∧ σ'.time = σ.time ∧ (σ.trajectory = none → σ'.trajectory = none)) ∧
    (¬ validateInput inp → σ.current_input ≠ some inp →
      update σ inp = (σ, none, Result.ErrorInvalidInput)) := by
  constructor
  · intro σ' o r h hW hF
    obtain ⟨hσ, ho⟩ := update_error_state σ inp σ' o r h hW hF
    exact ⟨hσ, ho, by rw [hσ], fun ht => by rw [hσ]; exact ht⟩
  · intro hval hin
    unfold update
    have hrec : recalcStep σ inp = (σ, none, Result.ErrorInvalidInput) := by
      unfold recalcStep
      rw [calcInvalid inp hval]
    cases htr : σ.trajectory with
    | some tr =>
        dsimp only
        rw [if_neg hin]
        exact hrec
    | none =>
        dsimp only
        exact hrec

/-- C1: every trajectory produced from a valid input keeps, at every time of
its domain and on every axis, the evaluated velocity within
[min_velocity, max_velocity] (the minimum defaulting to -max_velocity when
unset), the evaluated acceleration within [min_acceleration, max_acceleration],
and the evaluated jerk magnitude within max_jerk; with exact rational
arithmetic the tolerance is zero. -/
theorem trajectory_bounded (inp : InputParameter n) (tr : Trajectory n) (intr : Bool)
    (h : calculateWithBudget inp = Except.ok (tr, intr)) (i : Fin n) (t : ℚ)
    (ht0 : 0 ≤ t) (htd : t ≤ tr.duration) :
    (inp.limits i).vmin ≤ ((tr.at_time t i).1).v ∧
    ((tr.at_time t i).1).v ≤ (inp.limits i).vmax ∧
    (inp.limits i).amin ≤ ((tr.at_time t i).1).a ∧
    ((tr.at_time t i).1).a ≤ (inp.limits i).amax ∧
    |(tr.at_time t i).2| ≤ (inp.limits i).jmax := by
  obtain ⟨hval, m, rfl, hchk, _⟩ := calcOk inp tr intr h
  have hax := (hchk.1 i).1
  have hsound := profileCheck_sound (inp.limits i) (buildAxis inp m i).init
    (buildAxis inp m i).segs hax t ht0
  have heval : (assemble inp m).at_time t i =
      atTime (buildAxis inp m i).init (buildAxis inp m i).segs t := rfl
  rw [heval]
  obtain ⟨⟨h1, h2, h3, h4⟩, h5⟩ := hsound
  exact ⟨h1, h2, h3, h4, h5⟩

/-- C2: a successfully (and completely) computed trajectory reproduces the
input's current position, velocity and acceleration exactly at time 0, and at
its total duration reproduces the full target state under position control, or
the target velocity and acceleration under velocity control; with exact
rational arithmetic the tolerance is zero. -/
theorem trajectory_boundary_exact (inp : InputParameter n) (tr : Trajectory n)
    (h : calculateWithBudget inp = Except.ok (tr, false)) (i : Fin n) :
    (tr.at_time 0 i).1 = currentKin inp i ∧
    (inp.control_interface = ControlInterface.Position →
      (tr.at_time tr.duration i).1 = targetKin inp i) ∧
    (inp.control_interface = ControlInterface.Velocity →
      ((tr.at_time tr.duration i).1).v = inp.target_velocity i ∧
      ((tr.at_time tr.duration i).1).a = inp.target_acceleration i) := by
  obtain ⟨hval, m, rfl, hchk, hm0, hmS, hfull⟩ := calcOk inp tr false h
  have hmN : m = numSections inp := hfull rfl
  have hax := hchk.1 i
  have hdurs : ∀ s ∈ (buildAxis inp m i).segs, 0 ≤ s.t :=
    segsCheck_durs (inp.limits i) (buildAxis inp m i).init (buildAxis inp m i).segs hax.1.2.2
  have heval : ∀ τ, (assemble inp m).at_time τ i =
      atTime (buildAxis inp m i).init (buildAxis inp m i).segs τ := fun τ => rfl
  constructor
  · rw [heval 0, atTime_zero_state (buildAxis inp m i).segs (buildAxis inp m i).init hdurs]
    rfl
  · have hend : ((assemble inp m).at_time (assemble inp m).duration i).1 =
        endState (buildAxis inp m i).init (buildAxis inp m i).segs := by
      rw [heval]
      rw [atTime_past (buildAxis inp m i).segs (buildAxis inp m i).init
        (assemble inp m).duration hdurs hax.2.2.2.2.1]
    have hgoal := hax.2.1 (m-1) (List.mem_range.mpr (by omega))
    have hm1 : m - 1 + 1 = m := by omega
    unfold sectionGoal at hgoal
    rw [if_pos ⟨hm1, hmN⟩] at hgoal
    have htake : ((buildAxis inp m i).sections.take (m-1+1)) = (buildAxis inp m i).sections :=
      List.take_of_length_le (by rw [buildAxis_length]; omega)
    rw [htake] at hgoal
    have hflat : ((buildAxis inp m i).sections).flatten = (buildAxis inp m i).segs := rfl
    rw [hflat] at hgoal
    constructor
    · intro hpos
      rw [hend]
      exact hgoal.1 hpos
    · intro hvel
      rw [hend]
      exact hgoal.2 hvel

/-- Minimal duration of a section, stated on the option of the solved phases. -/
theorem optDur (o : Option (List Seg)) : sumDur (o.getD []) = (o.map sumDur).getD 0 := by
  cases o with
  | none => rfl
  | some segs => rfl

/-- Under Synchronization.None the built section is the minimal candidate. -/
theorem sectionSegsAt_none (inp : InputParameter n) (m k : ℕ) (i : Fin n)
    (hsync : inp.synchronization = Synchronization.None) :
    sectionSegsAt inp m k i = (solveSection inp i k).getD [] := by
  unfold sectionSegsAt
  rw [hsync]

/-- Under Synchronization.None each axis keeps its unconstrained minimal
duration. -/
theorem buildAxis_none_duration (inp : InputParameter n) (i : Fin n)
    (hsync : inp.synchronization = Synchronization.None) :
    (buildAxis inp (numSections inp) i).duration = axisMinDuration inp i := by
  unfold AxisProfile.duration axisMinDuration
  have hsegs : (buildAxis inp (numSections inp) i).segs =
      ((List.range (numSections inp)).map (fun k => sectionSegsAt inp (numSections inp) k i)).flatten := rfl
  rw [hsegs, sumDur_flatten, List.map_map]
  apply congrArg
  apply List.map_congr_left
  intro k _
  show sumDur (sectionSegsAt inp (numSections inp) k i) = minSectionDur inp i k
  rw [sectionSegsAt_none inp (numSections inp) k i hsync]
  unfold minSectionDur
  exact optDur (solveSection inp i k)

/-- C6: under the default synchronized mode every axis of a computed trajectory
shares the common finish time (the trajectory duration); with synchronization
set to None each axis keeps its own unconstrained minimal-duration profile, the
trajectory duration is the latest finishing axis's duration (every axis
finishes no later), and when two axes' unconstrained minimal durations differ,
some axis's individual finish time differs from the common block duration. -/
theorem synchronization_toggle (inp : InputParameter n) (tr : Trajectory n) (intr : Bool)
    (h : calculateWithBudget inp = Except.ok (tr, intr)) :
    (inp.synchronization = Synchronization.Time → ∀ i, (tr.axes i).duration = tr.duration) ∧
    (inp.synchronization = Synchronization.None →
      (∀ i, (tr.axes i).duration = axisMinDuration inp i) ∧
      (∀ i, (tr.axes i).duration ≤ tr.duration) ∧
      (∀ i j, axisMinDuration inp i ≠ axisMinDuration inp j →
        ∃ i0, (tr.axes i0).duration ≠ tr.duration)) := by
  obtain ⟨hval, m, rfl, hchk, hm0, hmS, _⟩ := calcOk inp tr intr h
  constructor
  · intro hsync i
    exact (hchk.1 i).2.2.2.2.2 hsync
  · intro hsync
    have hws : inp.intermediate_positions = [] := by
      by_contra hne
      have := hval.2.2.2.2.1 hne
      rw [hsync] at this
      cases this
    have hmN : m = numSections inp := by
      have h1 : numSections inp = 1 := by unfold numSections; rw [hws]; rfl
      rw [h1] at hmS ⊢
      omega
    have hdur : ∀ i, ((assemble inp m).axes i).duration = axisMinDuration inp i := by
      intro i
      show (buildAxis inp m i).duration = axisMinDuration inp i
      rw [hmN]
      exact buildAxis_none_duration inp i hsync
    refine ⟨hdur, fun i => (hchk.1 i).2.2.2.2.1, ?_⟩
    intro i j hij
    rcases lt_trichotomy (axisMinDuration inp i) (axisMinDuration inp j) with hlt | heq | hlt
    · refine ⟨i, ?_⟩
      have hj : ((assemble inp m).axes j).duration ≤ (assemble inp m).duration :=
        (hchk.1 j).2.2.2.2.1
      rw [hdur i]
      rw [hdur j] at hj
      intro hcontra
      rw [hcontra] at hlt
      exact absurd hj (not_le.mpr hlt)
    · exact absurd heq hij
    · refine ⟨j, ?_⟩
      have hi : ((assemble inp m).axes i).duration ≤ (assemble inp m).duration :=
        (hchk.1 i).2.2.2.2.1
      rw [hdur j]
      rw [hdur i] at hi
      intro hcontra
      rw [hcontra] at hlt
      exact absurd hi (not_le.mpr hlt)

/-- C8: with a per-section minimum-duration vector (one entry per section, 0
meaning unconstrained), every section of every axis of a fully computed
trajectory lasts at least its corresponding entry, and there are exactly
waypoints + 1 sections; an infeasible floor can only surface as a calculation
error, never as a silently shortened section. -/
theorem per_section_floor (inp : InputParameter n) (tr : Trajectory n)
    (h : calculateWithBudget inp = Except.ok (tr, false)) (i : Fin n) (k : ℕ)
    (hk : k < numSections inp) :
    psmdAt inp k ≤ sumDur ((tr.axes i).sections.getD k []) ∧
    (tr.axes i).sections.length = numSections inp := by
  obtain ⟨hval, m, rfl, hchk, hm0, hmS, hfull⟩ := calcOk inp tr false h
  have hmN : m = numSections inp := hfull rfl
  constructor
  · exact (hchk.1 i).2.2.1 k (List.mem_range.mpr (by omega))
  · show (buildAxis inp m i).sections.length = numSections inp
    rw [buildAxis_length, hmN]

/-- Under the synchronized mode the overall duration is the synchronized one. -/
theorem trajDuration_time (inp : InputParameter n) (m : ℕ)
    (hsync : inp.synchronization = Synchronization.Time) :
    trajDuration inp m = syncDuration inp m := by
  unfold trajDuration
  rw [hsync]

/-- C5 (amended): with a global minimum_duration D, every successfully computed
trajectory lasts at least D; and for inputs without intermediate waypoints the
duration equals D as soon as D is at least every axis's unconstrained minimal
time (the extra time is absorbed by relaxed profiles).  With waypoints the
per-section synchronization can force a total strictly above D even when D
exceeds every axis's unconstrained minimal total, so the equality clause is
restricted to waypoint-free inputs. -/
theorem minimum_duration_floor (inp : InputParameter n) (tr : Trajectory n) (intr : Bool)
    (h : calculateWithBudget inp = Except.ok (tr, intr)) (D : ℚ)
    (hD : inp.minimum_duration = some D) :
    D ≤ tr.duration ∧
    (inp.intermediate_positions = [] → (∀ i, axisMinDuration inp i ≤ D) → tr.duration = D) := by
  obtain ⟨hval, m, rfl, hchk, hm0, hmS, _⟩ := calcOk inp tr intr h
  have hsync : inp.synchronization = Synchronization.Time :=
    hval.2.2.2.2.2 (by rw [hD]; exact Option.some_ne_none D)
  have hdur : (assemble inp m).duration = syncDuration inp m := trajDuration_time inp m hsync
  have hsyncD : syncDuration inp m = max (rawDuration inp m) D := by
    unfold syncDuration
    rw [hD]
    rfl
  constructor
  · rw [hdur, hsyncD]
    exact le_max_right _ _
  · intro hws hmin
    have hmN : m = 1 := by
      have h1 : numSections inp = 1 := by unfold numSections; rw [hws]; rfl
      rw [h1] at hmS
      omega
    have hpsmd : inp.per_section_minimum_duration = [] := by
      rcases hval.2.2.1 with hp | hp
      · exact hp
      · exact absurd hws hp.1
    have haxis : ∀ i, axisMinDuration inp i = minSectionDur inp i 0 := by
      intro i
      unfold axisMinDuration
      have h1 : numSections inp = 1 := by unfold numSections; rw [hws]; rfl
      rw [h1, show List.range 1 = [0] from rfl, List.map_singleton, List.sum_singleton]
    have h0D : 0 ≤ D := by
      have hn0 : 0 < n := hval.1
      have := hmin ⟨0, hn0⟩
      rw [haxis ⟨0, hn0⟩] at this
      linarith [minSectionDur_nonneg inp ⟨0, hn0⟩ 0]
    have hFD : foldMax ((List.finRange n).map (fun i => minSectionDur inp i 0)) ≤ D := by
      apply foldMax_le _ D h0D
      intro x hx
      obtain ⟨i, _, rfl⟩ := List.mem_map.mp hx
      have := hmin i
      rw [haxis i] at this
      exact this
    have hblock : blockDuration inp 0 ≤ D := by
      unfold blockDuration
      apply max_le
      · unfold psmdAt
        rw [hpsmd]
        exact h0D
      · exact hFD
    have hraw : rawDuration inp m ≤ D := by
      rw [hmN]
      unfold rawDuration
      rw [show List.range 1 = [0] from rfl, List.map_singleton, List.sum_singleton]
      exact hblock
    rw [hdur, hsyncD, max_eq_right hraw]

/-- Path point k+1 is waypoint k. -/
theorem pathPoints_getD (inp : InputParameter n) (i : Fin n) (k : ℕ)
    (hk : k < inp.intermediate_positions.length) :
    (pathPoints inp i).getD (k+1) 0 = (inp.intermediate_positions.get ⟨k, hk⟩) i := by
  unfold pathPoints
  rw [List.getD_cons_succ]
  have hklen : k < (inp.intermediate_positions.map (fun w => w i)).length := by
    rw [List.length_map]
    exact hk
  rw [List.getD_append _ _ _ _ hklen]
  rw [List.getD_eq_getElem?_getD, List.getElem?_map, List.getElem?_eq_getElem hk]
  rfl

/-- C7: for every waypoint of a fully computed trajectory there is a time
within the trajectory at which every axis's evaluated state is exactly the rest
state at that waypoint position, and this state is also the final state of the
sections preceding the junction — so position, velocity and acceleration are
continuous across the waypoint (the left piece ends, and the right piece
starts, at the evaluated state). -/
theorem waypoint_interpolation (inp : InputParameter n) (tr : Trajectory n)
    (h : calculateWithBudget inp = Except.ok (tr, false)) (k : ℕ)
    (hk : k < inp.intermediate_positions.length) :
    ∃ t, 0 ≤ t ∧ t ≤ tr.duration ∧ ∀ i,
      (tr.at_time t i).1 = restKin ((inp.intermediate_positions.get ⟨k, hk⟩) i) ∧
      (tr.at_time t i).1 = endState (tr.axes i).init (((tr.axes i).sections.take (k+1)).flatten) := by
  obtain ⟨hval, m, rfl, hchk, hm0, hmS, hfull⟩ := calcOk inp tr false h
  have hmN : m = numSections inp := hfull rfl
  have hws : inp.intermediate_positions ≠ [] := by
    intro hcon
    rw [hcon] at hk
    cases hk
  have hsync : inp.synchronization = Synchronization.Time := hval.2.2.2.2.1 hws
  have hk1m : k + 1 < m := by
    rw [hmN]
    unfold numSections
    omega
  refine ⟨((List.range (k+1)).map (adjustedBlock inp m)).sum, ?_, ?_, ?_⟩
  · apply List.sum_nonneg
    intro x hx
    obtain ⟨q, _, rfl⟩ := List.mem_map.mp hx
    exact adjustedBlock_nonneg inp m q
  · have hdur : (assemble inp m).duration = ((List.range m).map (adjustedBlock inp m)).sum := by
      show trajDuration inp m = _
      rw [trajDuration_time inp m hsync, ← adjustedBlock_sum inp m hm0]
    rw [hdur]
    exact range_map_sum_mono (adjustedBlock inp m) (adjustedBlock_nonneg inp m)
      (le_of_lt hk1m)
  · intro i
    have hax := hchk.1 i
    have hblk : ∀ q ∈ List.range m,
        sumDur ((buildAxis inp m i).sections.getD q []) = adjustedBlock inp m q :=
      fun q hq => hax.2.2.2.1 q hq hsync
    have hdurs : ∀ s ∈ (buildAxis inp m i).segs, 0 ≤ s.t :=
      segsCheck_durs (inp.limits i) (buildAxis inp m i).init (buildAxis inp m i).segs hax.1.2.2
    have hsplit : (buildAxis inp m i).segs =
        ((buildAxis inp m i).sections.take (k+1)).flatten ++
        ((buildAxis inp m i).sections.drop (k+1)).flatten := by
      show ((buildAxis inp m i).sections).flatten = _
      rw [← List.flatten_append, List.take_append_drop]
    have hl1durs : ∀ s ∈ ((buildAxis inp m i).sections.take (k+1)).flatten, 0 ≤ s.t := by
      intro s hs
      apply hdurs
      rw [hsplit]
      exact List.mem_append_left _ hs
    have hl2durs : ∀ s ∈ ((buildAxis inp m i).sections.drop (k+1)).flatten, 0 ≤ s.t := by
      intro s hs
      apply hdurs
      rw [hsplit]
      exact List.mem_append_right _ hs
    have hl1dur : sumDur (((buildAxis inp m i).sections.take (k+1)).flatten) =
        ((List.range (k+1)).map (adjustedBlock inp m)).sum :=
      take_flatten_dur inp m i hblk (k+1) (le_of_lt hk1m)
    have heval : ((assemble inp m).at_time (((List.range (k+1)).map (adjustedBlock inp m)).sum) i).1 =
        endState (buildAxis inp m i).init (((buildAxis inp m i).sections.take (k+1)).flatten) := by
      show (atTime (buildAxis inp m i).init (buildAxis inp m i).segs _).1 = _
      rw [hsplit, atTime_append _ _ _ _ hl1durs (le_of_eq hl1dur), hl1dur, sub_self]
      exact atTime_zero_state _ _ hl2durs
    have hgoal := hax.2.1 k (List.mem_range.mpr (by omega))
    unfold sectionGoal at hgoal
    rw [if_neg (fun hc => by omega)] at hgoal
    rw [pathPoints_getD inp i k hk] at hgoal
    have htake : ((buildAxis inp m i).sections.take (k+1)).flatten =
        (((assemble inp m).axes i).sections.take (k+1)).flatten := rfl
    refine ⟨?_, ?_⟩
    · rw [heval, hgoal]
    · rw [heval]
      rfl

/-- Shape of a controller state after an update that emitted an output: the
stored input is the caller's input with its current state advanced to the
emitted prediction, and the emitted trajectory is the stored one. -/
theorem update_ok_shape (σ : RuckigState n) (inp : InputParameter n)
    (σ1 : RuckigState n) (o1 : OutputParameter n) (r : Result)
    (h : update σ inp = (σ1, some o1, r)) :
    σ1.current_input = some (o1.pass_to_input inp) ∧ σ1.trajectory = some o1.trajectory ∧
    σ1.delta_time = σ.delta_time ∧ σ1.time = o1.time := by
  unfold update at h
  have hrec : recalcStep σ inp = (σ1, some o1, r) →
      σ1.current_input = some (o1.pass_to_input inp) ∧ σ1.trajectory = some o1.trajectory ∧
      σ1.delta_time = σ.delta_time ∧ σ1.time = o1.time := by
    intro h'
    unfold recalcStep at h'
    cases hc : calculateWithBudget inp with
    | error e =>
        rw [hc] at h'
        simp only [Prod.mk.injEq] at h'
        cases h'.2.1
    | ok pr =>
        rw [hc] at h'
        obtain ⟨tr, intr⟩ := pr
        dsimp only at h'
        simp only [Prod.mk.injEq] at h'
        obtain ⟨h1, h2, _⟩ := h'
        obtain rfl := Option.some.inj h2
        rw [← h1]
        exact ⟨rfl, rfl, rfl, rfl⟩
  revert h
  cases htr : σ.trajectory with
  | some tr =>
      intro h
      dsimp only at h
      by_cases hin : σ.current_input = some inp
      · rw [if_pos hin] at h
        simp only [Prod.mk.injEq] at h
        obtain ⟨h1, h2, _⟩ := h
        obtain rfl := Option.some.inj h2
        rw [← h1]
        exact ⟨rfl, rfl, rfl, rfl⟩
      · rw [if_neg hin] at h
        exact hrec h
  | none =>
      intro h
      dsimp only at h
      exact hrec h

/-- C3: after any update cycle that emitted an output and reported Working,
feeding the emitted new position/velocity/acceleration back as the next
cycle's current state (via pass_to_input) with everything else unchanged makes
the next update skip recalculation and sample the very same trajectory at the
advanced global time — re-planning from identical effective inputs introduces
no discontinuity, because recalculation is triggered only when the input
content differs from what produced the active trajectory. -/
theorem feedback_idempotent (σ : RuckigState n) (inp : InputParameter n)
    (σ1 : RuckigState n) (o1 : OutputParameter n)
    (h : update σ inp = (σ1, some o1, Result.Working)) :
    ∃ o2 : OutputParameter n,
      (update σ1 (o1.pass_to_input inp)).2.1 = some o2 ∧
      o2.new_calculation = false ∧
      σ1.trajectory = some o1.trajectory ∧
      o2.trajectory = o1.trajectory ∧
      o2.time = σ1.time + σ1.delta_time ∧
      ∀ i, o2.new_position i = ((o1.trajectory.at_time (σ1.time + σ1.delta_time) i).1).p ∧
           o2.new_velocity i = ((o1.trajectory.at_time (σ1.time + σ1.delta_time) i).1).v ∧
           o2.new_acceleration i = ((o1.trajectory.at_time (σ1.time + σ1.delta_time) i).1).a := by
  obtain ⟨hin, htr, _, _⟩ := update_ok_shape σ inp σ1 o1 Result.Working h
  refine ⟨stepOutput o1.trajectory (σ1.time + σ1.delta_time) false false 0, ?_, rfl, htr, rfl, rfl,
    fun i => ⟨rfl, rfl, rfl⟩⟩
  unfold update
  rw [htr]
  dsimp only
  rw [if_pos hin]

/-- A successful core calculation produced the assembled trajectory. -/
theorem calculateCore_ok (inp : InputParameter n) (m : ℕ) (tr : Trajectory n)
    (h : calculateCore inp m = Except.ok tr) : tr = assemble inp m ∧ finalCheck inp m := by
  unfold calculateCore at h
  by_cases hf : finalCheck inp m
  · rw [if_pos hf] at h
    exact ⟨(Except.ok.inj h).symm, hf⟩
  · rw [if_neg hf] at h
    cases h

/-- C9: when the deterministic computation budget (one modelled microsecond
per section) cannot cover all sections, the calculation returns the trajectory
of the sections computed so far — the best trajectory found — with the
was-interrupted flag raised instead of failing; only when the budget cannot
cover even one section (or no trajectory exists at all) is an error reported,
and a budget covering all sections never raises the flag. -/
theorem calculation_interruption (inp : InputParameter n) (b : ℕ)
    (hb : inp.interrupt_calculation_duration = some b) (hval : validateInput inp) :
    (b = 0 → calculateWithBudget inp = Except.error Result.ErrorExecutionTimeCalculation) ∧
    (0 < b → b < numSections inp → ∀ tr, calculateCore inp b = Except.ok tr →
      calculateWithBudget inp = Except.ok (tr, true) ∧
      ∀ i, (tr.axes i).sections.length = b) ∧
    (numSections inp ≤ b → ∀ tr, calculateCore inp (numSections inp) = Except.ok tr →
      calculateWithBudget inp = Except.ok (tr, false)) := by
  have hS : 0 < numSections inp := Nat.succ_pos _
  refine ⟨?_, ?_, ?_⟩
  · intro hb0
    unfold calculateWithBudget
    rw [if_pos hval, hb]
    dsimp only
    rw [if_neg (by omega), if_neg (by omega)]
  · intro hb0 hbS tr hcore
    constructor
    · unfold calculateWithBudget
      rw [if_pos hval, hb]
      dsimp only
      rw [if_neg (by omega), if_pos hb0, hcore]
      rfl
    · intro i
      obtain ⟨rfl, _⟩ := calculateCore_ok inp b tr hcore
      exact buildAxis_length inp b i
  · intro hbS tr hcore
    unfold calculateWithBudget
    rw [if_pos hval, hb]
    dsimp only
    rw [if_pos hbS, hcore]
    rfl

/-- Witness for C1 at a concrete input and time. -/
theorem trajectory_bounded_witness :
    calculateWithBudget inpA = Except.ok (trA, false) ∧ (0:ℚ) ≤ 1/2 ∧ (1/2:ℚ) ≤ trA.duration ∧
    ((inpA.limits 0).vmin ≤ ((trA.at_time (1/2) 0).1).v ∧
     ((trA.at_time (1/2) 0).1).v ≤ (inpA.limits 0).vmax ∧
     (inpA.limits 0).amin ≤ ((trA.at_time (1/2) 0).1).a ∧
     ((trA.at_time (1/2) 0).1).a ≤ (inpA.limits 0).amax ∧
     |(trA.at_time (1/2) 0).2| ≤ (inpA.limits 0).jmax) :=
  ⟨of_decide_eq_true (by with_unfolding_all rfl),
   of_decide_eq_true (by with_unfolding_all rfl),
   of_decide_eq_true (by with_unfolding_all rfl),
   trajectory_bounded inpA trA false (of_decide_eq_true (by with_unfolding_all rfl)) 0 (1/2)
     (of_decide_eq_true (by with_unfolding_all rfl))
     (of_decide_eq_true (by with_unfolding_all rfl))⟩

/-- Witness for C2 at a concrete input. -/
theorem trajectory_boundary_exact_witness :
    calculateWithBudget inpA = Except.ok (trA, false) ∧
    ((trA.at_time 0 0).1 = currentKin inpA 0 ∧
     (inpA.control_interface = ControlInterface.Position →
       (trA.at_time trA.duration 0).1 = targetKin inpA 0) ∧
     (inpA.control_interface = ControlInterface.Velocity →
       ((trA.at_time trA.duration 0).1).v = inpA.target_velocity 0 ∧
       ((trA.at_time trA.duration 0).1).a = inpA.target_acceleration 0)) :=
  ⟨of_decide_eq_true (by with_unfolding_all rfl),
   trajectory_boundary_exact inpA trA (of_decide_eq_true (by with_unfolding_all rfl)) 0⟩

/-- The basic input's calculation succeeds with the expected trajectory. -/
theorem calcA_eq : calculateWithBudget inpA = Except.ok (trA, false) :=
  of_decide_eq_true (by with_unfolding_all rfl)

/-- The basic trajectory outlasts one control cycle. -/
theorem durA_lt : sA.delta_time < trA.duration :=
  of_decide_eq_true (by with_unfolding_all rfl)

/-- First cycle of the basic input, established stepwise. -/
theorem updA_eq : update sA inpA = (sA1, some oA1, Result.Working) := by
  show recalcStep sA inpA = _
  unfold recalcStep
  rw [calcA_eq]
  dsimp only
  rw [if_pos durA_lt]
  rfl

/-- Witness for C3: a concrete two-cycle run of the controller. -/
theorem feedback_idempotent_witness :
    update sA inpA = (sA1, some oA1, Result.Working) ∧
    (∃ o2 : OutputParameter 1,
      (update sA1 (oA1.pass_to_input inpA)).2.1 = some o2 ∧
      o2.new_calculation = false ∧
      sA1.trajectory = some oA1.trajectory ∧
      o2.trajectory = oA1.trajectory ∧
      o2.time = sA1.time + sA1.delta_time ∧
      ∀ i, o2.new_position i = ((oA1.trajectory.at_time (sA1.time + sA1.delta_time) i).1).p ∧
           o2.new_velocity i = ((oA1.trajectory.at_time (sA1.time + sA1.delta_time) i).1).v ∧
           o2.new_acceleration i = ((oA1.trajectory.at_time (sA1.time + sA1.delta_time) i).1).a) :=
  ⟨updA_eq, feedback_idempotent sA inpA sA1 oA1 updA_eq⟩

/-- Witness for C4: a malformed jerk limit is rejected as InvalidInput while
the controller state stays frozen. -/
theorem update_error_frozen_witness :
    ¬ validateInput inpBad ∧ sA.current_input ≠ some inpBad ∧
    update sA inpBad = (sA, none, Result.ErrorInvalidInput) :=
  ⟨of_decide_eq_true (by with_unfolding_all rfl),
   of_decide_eq_true (by with_unfolding_all rfl),
   (update_error_frozen sA inpBad).2 (of_decide_eq_true (by with_unfolding_all rfl))
     (of_decide_eq_true (by with_unfolding_all rfl))⟩

/-- Counterexample for C5 as stated: with one waypoint, per-section
synchronization forces a duration strictly above the global minimum_duration
even though the minimum exceeds every axis's unconstrained minimal time. -/
theorem minimum_duration_counterexample :
    calculateWithBudget inpC5 = Except.ok (trC5, false) ∧
    inpC5.minimum_duration = some 20 ∧
    (∀ i, axisMinDuration inpC5 i < 20) ∧
    trC5.duration ≠ 20 :=
  of_decide_eq_true (by with_unfolding_all rfl)

/-- Witness for the amended C5: without waypoints, the extra time demanded by
minimum_duration is absorbed exactly. -/
theorem minimum_duration_floor_witness :
    calculateWithBudget inpD = Except.ok (trD, false) ∧
    inpD.minimum_duration = some 7 ∧
    ((7:ℚ) ≤ trD.duration ∧
     (inpD.intermediate_positions = [] → (∀ i, axisMinDuration inpD i ≤ 7) → trD.duration = 7)) ∧
    trD.duration = 7 :=
  ⟨of_decide_eq_true (by with_unfolding_all rfl), rfl,
   minimum_duration_floor inpD trD false (of_decide_eq_true (by with_unfolding_all rfl)) 7 rfl,
   of_decide_eq_true (by with_unfolding_all rfl)⟩

/-- Witness for C6: an unsynchronized two-axis run with different minimal
durations, where one axis finishes before the block duration. -/
theorem synchronization_toggle_witness :
    calculateWithBudget inpB = Except.ok (trB, false) ∧
    inpB.synchronization = Synchronization.None ∧
    axisMinDuration inpB 0 ≠ axisMinDuration inpB 1 ∧
    (∃ i0, (trB.axes i0).duration ≠ trB.duration) :=
  ⟨of_decide_eq_true (by with_unfolding_all rfl), rfl,
   of_decide_eq_true (by with_unfolding_all rfl),
   ((synchronization_toggle inpB trB false (of_decide_eq_true (by with_unfolding_all rfl))).2
     rfl).2.2 0 1 (of_decide_eq_true (by with_unfolding_all rfl))⟩

/-- Witness for C7 at a concrete waypoint input. -/
theorem waypoint_interpolation_witness :
    calculateWithBudget inpE = Except.ok (trE, false) ∧
    (∃ t, 0 ≤ t ∧ t ≤ trE.duration ∧ ∀ i,
      (trE.at_time t i).1 = restKin ((inpE.intermediate_positions.get ⟨0, by decide⟩) i) ∧
      (trE.at_time t i).1 =
        endState (trE.axes i).init (((trE.axes i).sections.take 1).flatten)) :=
  ⟨of_decide_eq_true (by with_unfolding_all rfl),
   waypoint_interpolation inpE trE (of_decide_eq_true (by with_unfolding_all rfl)) 0 (by decide)⟩

/-- Witness for C8 at a concrete per-section floor. -/
theorem per_section_floor_witness :
    calculateWithBudget inpF = Except.ok (trF, false) ∧ 0 < numSections inpF ∧
    (psmdAt inpF 0 ≤ sumDur ((trF.axes 0).sections.getD 0 []) ∧
     (trF.axes 0).sections.length = numSections inpF) :=
  ⟨of_decide_eq_true (by with_unfolding_all rfl), by decide,
   per_section_floor inpF trF (of_decide_eq_true (by with_unfolding_all rfl)) 0 0 (by decide)⟩

/-- Witness for C9: a one-microsecond budget over a three-section input yields
the one-section best-so-far trajectory with the interruption flag raised. -/
theorem calculation_interruption_witness :
    inpG.interrupt_calculation_duration = some 1 ∧ validateInput inpG ∧
    calculateCore inpG 1 = Except.ok trG ∧
    (calculateWithBudget inpG = Except.ok (trG, true) ∧
     ∀ i, (trG.axes i).sections.length = 1) :=
  ⟨rfl, of_decide_eq_true (by with_unfolding_all rfl),
   of_decide_eq_true (by with_unfolding_all rfl),
   (calculation_interruption inpG 1 rfl (of_decide_eq_true (by with_unfolding_all rfl))).2.1
     (by decide) (by decide) trG (of_decide_eq_true (by with_unfolding_all rfl))⟩
